import Mathlib

/-!
Verification of the lindyhop-aachen event store against its specification.

The crate root `src/main.rs` declares `mod events;` and `mod id_map;`, but the
files `src/events.rs` and `src/id_map.rs` are not part of the available
sources; the definitions embedding them below are modelled from the
specification (their doc comments say so).  Everything else is embedded from
the sources: the HTTP routes of `src/main.rs`, the renderers of
`src/website.rs`, the GraphQL location mutations of `src/store/mod.rs`, and
the SQL record conversions of `src/store/db.rs`.

Time is modelled in whole minutes (the resolution relevant to the store:
`Occurrence.duration` is a number of minutes and chrono's `NaiveDateTime` is a
timezone-free instant): an instant is the `Int` of minutes since an arbitrary
epoch, the calendar date of an instant is its floor division by 1440 (minutes
per day) and its time of day is the remainder.
-/

namespace Lindy

/-- Modelled from the spec: the typed identifier of the missing `src/id_map.rs`
(spec section 3).  An `Id T` is an opaque token tagged with the entity kind `T`
it addresses; two identifiers are equal iff their raw values are equal.  The
128-bit random raw value is modelled as a `Nat`. -/
structure Id (T : Type) where
  raw : Nat
deriving DecidableEq, Repr

variable {T : Type}

/-- Modelled from the spec: `Id::to_unsafe` (used in `src/main.rs` to store a
location reference inside an occurrence) forgets the type tag and yields the
raw value. -/
def Id.to_unsafe (i : Id T) : Nat := i.raw

/-- Modelled from the spec: the `IdMap<T>` of the missing `src/id_map.rs` (spec
section 4.1), a collection of one `T` per identifier.  Entries are an
association list from raw identifier to value; the fresh random identifiers of
the source are modelled by the counter `nextFresh`, which mints a value never
used before (the spec assumes uniqueness of the random values). -/
structure IdMap (T : Type) where
  nextFresh : Nat
  entries : List (Nat × T)
deriving DecidableEq, Repr

/-- Modelled from the spec: `IdMap::new`, the empty map (`Locations::new()` and
`Events::new()` in `src/main.rs`). -/
def IdMap.new (T : Type) : IdMap T := ⟨1, []⟩

/-- Whether the map currently holds an entry for the raw identifier. -/
def IdMap.containsRaw (m : IdMap T) (raw : Nat) : Bool :=
  m.entries.any (fun p => p.1 == raw)

/-- Modelled from the spec: `validate(raw_id) -> Option<Identifier<T>>` (spec
section 4.1) returns a typed identifier bound to this map iff the map
currently has an entry for `raw_id`. -/
def IdMap.validate (m : IdMap T) (raw : Nat) : Option (Id T) :=
  if m.containsRaw raw then some ⟨raw⟩ else none

/-- Modelled from the spec: `insert(value) -> Identifier<T>` mints a fresh
identifier, stores the value and returns the identifier; it never fails. -/
def IdMap.insert (m : IdMap T) (v : T) : Id T × IdMap T :=
  (⟨m.nextFresh⟩, ⟨m.nextFresh + 1, (m.nextFresh, v) :: m.entries⟩)

/-- Modelled from the spec: `get(id)` returns the stored value.  In the source
the precondition is that `id` was validated or minted and not removed since; a
violation is fatal there and is the `none` case here. -/
def IdMap.get (m : IdMap T) (i : Id T) : Option T :=
  m.entries.lookup i.raw

/-- Modelled from the spec: `set(id, value)` replaces the value stored under
`id`, keeping the key. -/
def IdMap.set (m : IdMap T) (i : Id T) (v : T) : IdMap T :=
  ⟨m.nextFresh, m.entries.map (fun p => if p.1 == i.raw then (p.1, v) else p)⟩

/-- Modelled from the spec: `remove(id)` deletes the entry and returns the
removed value (the `none` case is the source's fatal precondition violation). -/
def IdMap.remove (m : IdMap T) (i : Id T) : Option T × IdMap T :=
  (m.entries.lookup i.raw, ⟨m.nextFresh, m.entries.filter (fun p => p.1 != i.raw)⟩)

/-- From `src/events.rs` via the spec, section 3: a venue.  Its identity is the
map key; the value stores only the displayed fields. -/
structure Location where
  name : String
  address : String
deriving DecidableEq, Repr

/-- From `src/events.rs` via the spec, section 3: one scheduled instance of an
event.  `start` is a naive date-time (modelled in minutes), `duration` is in
whole minutes, and `location_id` is the raw (`to_unsafe`) value of a location
identifier, validated only when used (see `html_from_occurrence`). -/
structure Occurrence where
  start : Int
  duration : Nat
  location_id : Nat
deriving DecidableEq, Repr

/-- Modelled from the spec: the derived end instant `end = start + duration`
minutes (spec section 3, invariant 3).  `end` is a Lean keyword, hence the
name `endTime`. -/
def Occurrence.endTime (o : Occurrence) : Int := o.start + o.duration

/-- From `src/events.rs` via the spec, section 3: an event owning its ordered
occurrence sequence. -/
structure Event where
  title : String
  teaser : String
  description : String
  occurrences : List Occurrence
deriving DecidableEq, Repr

/-- The Locations map alias. -/
abbrev Locations := IdMap Location

/-- The Events map alias. -/
abbrev Events := IdMap Event

/-- Modelled from the spec: the `events::Store` aggregate owning the Locations
and the Events maps (spec section 4.2);  `src/main.rs` accesses the fields
`store.locations` and `store.events` directly. -/
structure Store where
  locations : Locations
  events : Events
deriving DecidableEq, Repr

/-- Modelled from the spec: an `OccurrenceFilter` is a predicate value over an
occurrence's time range carrying the reference instant it was constructed with
(spec section 4.3). -/
structure OccurrenceFilter where
  reference : Int
deriving DecidableEq, Repr

/-- Modelled from the spec: `OccurrenceFilter::upcoming()` captures the current
moment once, at construction (spec section 4.3); the captured clock value is
the explicit argument `now`. -/
def OccurrenceFilter.upcoming (now : Int) : OccurrenceFilter := ⟨now⟩

/-- Modelled from the spec: the filter matches occurrences whose end time
(`start + duration`) is at or after the captured reference instant (spec
section 4.3). -/
def OccurrenceFilter.accepts (f : OccurrenceFilter) (o : Occurrence) : Bool :=
  decide (f.reference ≤ o.endTime)

/-- Modelled from the spec: the set of events owning at least one occurrence
whose `location_id` equals the given location identifier, as scanned by
`delete_location` (spec section 4.2). -/
def Store.dependentEvents (s : Store) (i : Id Location) : List (Id Event) :=
  (s.events.entries.filter
      (fun p => p.2.occurrences.any (fun o => o.location_id == i.raw))).map
    (fun p => ⟨p.1⟩)

/-- Result of the store-level `delete_location`: either the removed location
(the `none` payload is the source's fatal precondition violation inside
`remove`) or the refusing list of dependent event identifiers. -/
inductive DeleteLocationResult where
  | ok (removed : Option Location)
  | dependent (deps : List (Id Event))
deriving DecidableEq, Repr

/-- Modelled from the spec: `delete_location(id) -> Result<Location,
DependentEvents>` (spec section 4.2): compute the dependent events; when the
set is non-empty refuse the deletion and return the dependent event
identifiers, leaving the store untouched; when empty delegate to removal and
return the deleted location. -/
def Store.delete_location (s : Store) (i : Id Location) :
    DeleteLocationResult × Store :=
  let deps := s.dependentEvents i
  if deps.isEmpty then
    let r := s.locations.remove i
    (DeleteLocationResult.ok r.1, { s with locations := r.2 })
  else
    (DeleteLocationResult.dependent deps, s)

/-- Responses of the HTTP routes of `src/main.rs`, one constructor per
distinguishable outcome: `notFound` is a 404 (for the `Option` routes rocket
produces it from `None`, modelled with the empty message), `conflict` is the
409 `DeleteLocationError::DependentEvents` payload, and `fatal` is the panic
of an `IdMap` precondition violation (`get`/`remove` on an absent key). -/
inductive ApiResponse where
  | okEvent (e : Event)
  | okLocation (l : Location)
  | okEventId (i : Id Event)
  | okLocationId (i : Id Location)
  | notFound (msg : String)
  | conflict (deps : List (Id Event))
  | fatal
deriving DecidableEq, Repr

/-- The mutating and identifier-carrying HTTP routes `src/main.rs` mounts:
`create_event`, `read_event`, `update_event`, `delete_event`,
`create_location`, `read_location`, `update_location`, `delete_location`.
`uuid` is the externally supplied raw identifier of the route path. -/
inductive ApiOp where
  | createEvent (e : Event)
  | readEvent (uuid : Nat)
  | updateEvent (uuid : Nat) (e : Event)
  | deleteEvent (uuid : Nat)
  | createLocation (l : Location)
  | readLocation (uuid : Nat)
  | updateLocation (uuid : Nat) (l : Location)
  | deleteLocation (uuid : Nat)
deriving DecidableEq, Repr

/-- One HTTP request against the store, from the route bodies of
`src/main.rs` lines 120-228: each route validates any externally supplied
identifier first and threads the store state. -/
def apiStep (op : ApiOp) (s : Store) : ApiResponse × Store :=
  match op with
  | ApiOp.createEvent e =>
    let r := s.events.insert e
    (ApiResponse.okEventId r.1, { s with events := r.2 })
  | ApiOp.readEvent uuid =>
    match s.events.validate uuid with
    | none => (ApiResponse.notFound "", s)
    | some i =>
      match s.events.get i with
      | some e => (ApiResponse.okEvent e, s)
      | none => (ApiResponse.fatal, s)
  | ApiOp.updateEvent uuid e =>
    match s.events.validate uuid with
    | none => (ApiResponse.notFound "The uuid does not belong to an event.", s)
    | some i =>
      let m := s.events.set i e
      match m.get i with
      | some cur => (ApiResponse.okEvent cur, { s with events := m })
      | none => (ApiResponse.fatal, { s with events := m })
  | ApiOp.deleteEvent uuid =>
    match s.events.validate uuid with
    | none => (ApiResponse.notFound "The uuid does not belong to an event.", s)
    | some i =>
      let r := s.events.remove i
      match r.1 with
      | some e => (ApiResponse.okEvent e, { s with events := r.2 })
      | none => (ApiResponse.fatal, { s with events := r.2 })
  | ApiOp.createLocation l =>
    let r := s.locations.insert l
    (ApiResponse.okLocationId r.1, { s with locations := r.2 })
  | ApiOp.readLocation uuid =>
    match s.locations.validate uuid with
    | none => (ApiResponse.notFound "", s)
    | some i =>
      match s.locations.get i with
      | some l => (ApiResponse.okLocation l, s)
      | none => (ApiResponse.fatal, s)
  | ApiOp.updateLocation uuid l =>
    match s.locations.validate uuid with
    | none => (ApiResponse.notFound "", s)
    | some i =>
      let m := s.locations.set i l
      match m.get i with
      | some cur => (ApiResponse.okLocation cur, { s with locations := m })
      | none => (ApiResponse.fatal, { s with locations := m })
  | ApiOp.deleteLocation uuid =>
    match s.locations.validate uuid with
    | none => (ApiResponse.notFound "No event was found with the id.", s)
    | some i =>
      match s.delete_location i with
      | (DeleteLocationResult.dependent deps, s2) => (ApiResponse.conflict deps, s2)
      | (DeleteLocationResult.ok (some l), s2) => (ApiResponse.okLocation l, s2)
      | (DeleteLocationResult.ok none, s2) => (ApiResponse.fatal, s2)

/-- Minutes per day: `Occurrence.start` instants are counted in minutes. -/
def minutesPerDay : Int := 1440

/-- The calendar date of an instant, as a day number: floor division by the
minutes per day (for the positive divisor, `Int` division is floor division,
matching chrono's date extraction from a naive date-time). -/
def dateOf (t : Int) : Int := t / minutesPerDay

/-- The time of day of an instant, in minutes since midnight. -/
def timeOf (t : Int) : Int := t % minutesPerDay

/-- Modelled from the spec: one element of the flattened
`(Occurrence, owning Event)` sequence of the `occurrences_by_date` algorithm
(spec section 4.2, step 1).  `eventId` is the owning event's map key — the
spec's deterministic secondary sort key — and `occIdx` is the occurrence's
position in its event's ordered sequence, which is what the spec's stable
sorting preserves for occurrences of one event with identical keys. -/
structure QueryEntry where
  eventId : Nat
  occIdx : Nat
  occurrence : Occurrence
  event : Event
deriving DecidableEq, Repr

/-- Modelled from the spec: the sort order of `occurrences_by_date` (spec
section 4.2, steps 4-5): ascending by start instant — which orders the
calendar-date groups ascending and each group internally by time of day —
with ties broken by the owning event's identifier and then by the
occurrence's position in its event's sequence (the spec's stable,
deterministic secondary key). -/
def entryLe (a b : QueryEntry) : Prop :=
  a.occurrence.start < b.occurrence.start ∨
    (a.occurrence.start = b.occurrence.start ∧
      (a.eventId < b.eventId ∨ (a.eventId = b.eventId ∧ a.occIdx ≤ b.occIdx)))

instance : DecidableRel entryLe := fun a b => by
  unfold entryLe; exact inferInstance

instance : IsTotal QueryEntry entryLe := ⟨by
  intro a b; unfold entryLe; omega⟩

instance : IsTrans QueryEntry entryLe := ⟨by
  intro a b c; unfold entryLe; omega⟩

/-- The pair that identifies one flattened entry: the owning event's key and
the occurrence's position inside that event. -/
def entryKey (x : QueryEntry) : Nat × Nat := (x.eventId, x.occIdx)

/-- Modelled from the spec: step 1 of the `occurrences_by_date` algorithm —
flatten all events and their occurrences to one sequence of occurrence/event
pairs, remembering the owning event's key and each occurrence's position. -/
def Store.flattenOccurrences (s : Store) : List QueryEntry :=
  s.events.entries.flatMap (fun p =>
    p.2.occurrences.enum.map (fun q => ⟨p.1, q.1, q.2, p.2⟩))

/-- Modelled from the spec: step 3 of the `occurrences_by_date` algorithm —
group a (sorted) sequence of entries by the calendar date of `start`,
discarding the time of day for grouping.  Consecutive entries of equal date
join one group. -/
def groupByDate : List QueryEntry → List (Int × List QueryEntry)
  | [] => []
  | e :: rest =>
    match groupByDate rest with
    | [] => [(dateOf e.occurrence.start, [e])]
    | (d, g) :: gs =>
      if dateOf e.occurrence.start = d then (d, e :: g) :: gs
      else (dateOf e.occurrence.start, [e]) :: (d, g) :: gs

/-- Modelled from the spec: `occurrences_by_date(filter)` (spec section 4.2):
flatten, retain the entries accepted by the filter, sort them ascending by
start with the deterministic tie-break, and group them by calendar date;
groups come out ascending by date and internally ascending by start. -/
def Store.occurrences_by_date (s : Store) (f : OccurrenceFilter) :
    List (Int × List QueryEntry) :=
  groupByDate
    (List.insertionSort entryLe
      (s.flattenOccurrences.filter (fun e => f.accepts e.occurrence)))

/-- Left-pad a minute or hour number to two digits, as chrono's `%H:%M`
formatting does. -/
def pad2 (n : Int) : String := if n < 10 then "0" ++ toString n else toString n

/-- The `%H:%M` rendering of an instant's time of day. -/
def formatHM (t : Int) : String :=
  pad2 (timeOf t / 60) ++ ":" ++ pad2 (timeOf t % 60)

/-- From `src/main.rs` lines 92-97: the four rendered fragments of one
occurrence entry (markup modelled as the embedded strings). -/
structure OccurrenceHtml where
  time : String
  location : String
  title : String
  teaser : String
deriving DecidableEq, Repr

/-- From `src/main.rs` lines 99-118, `html_from_occurrence`: validate the
occurrence's raw location reference against the Locations map and fetch the
location when it validates; the location fragment shows the location's name,
or the fixed fallback text "Steht noch nicht fest." when the reference does
not resolve. -/
def html_from_occurrence (occurrence : Occurrence) (event : Event)
    (locations : Locations) : OccurrenceHtml :=
  let maybe_location :=
    (locations.validate occurrence.location_id).bind (fun i => locations.get i)
  { time := formatHM occurrence.start ++ " bis " ++ formatHM occurrence.endTime
    location :=
      match maybe_location with
      | some location => location.name
      | none => "Steht noch nicht fest."
    title := event.title
    teaser := event.teaser }

namespace Website

/-- From `src/website.rs`: in this revision an occurrence's location reference
lives beside the occurrence, in `OccurrenceWithLocation`; the occurrence value
itself holds the start instant and the duration. -/
structure Occurrence where
  start : Int
  duration : Nat
deriving DecidableEq, Repr

/-- From `src/website.rs` (the `store::OccurrenceWithLocation` it imports): an
occurrence together with its raw location reference. -/
structure OccurrenceWithLocation where
  occurrence : Website.Occurrence
  location_id : Nat
deriving DecidableEq, Repr

/-- From `src/website.rs` (the `store::Event` it imports): the fields the
renderers read. -/
structure Event where
  title : String
  teaser : String
deriving DecidableEq, Repr

/-- From `src/website.rs` (the `store::EventWithOccurrences` it imports): an
event together with its occurrences that passed the filter. -/
structure EventWithOccurrences where
  event : Website.Event
  occurrences : List OccurrenceWithLocation
deriving DecidableEq, Repr

/-- From `src/website.rs` lines 114-118: the fragments of one rendered
occurrence. -/
structure OccurrenceHtml where
  title : String
  quick_info : String
  teaser : String
deriving DecidableEq, Repr

/-- From `src/website.rs` lines 120-136, `html_from_occurrence`: look the raw
location reference up in the locations snapshot (`store.all()`, a map from
identifier to location, modelled as its entry list); the quick-info line shows
the location's name, or the fixed fallback "Steht noch nicht fest." when the
reference is absent from the snapshot. -/
def html_from_occurrence (occurrence : OccurrenceWithLocation)
    (event : Website.Event) (locations : List (Nat × Location)) :
    Website.OccurrenceHtml :=
  let maybe_location := locations.lookup occurrence.location_id
  let location_name :=
    match maybe_location with
    | some location => location.name
    | none => "Steht noch nicht fest."
  { title := event.title
    quick_info := formatHM occurrence.occurrence.start ++ " - " ++ location_name
    teaser := event.teaser }

/-- The modulus of Rust's 64-bit `usize` arithmetic. -/
def usizeMod : Nat := 2 ^ 64

/-- Wrapping subtraction of two `usize` values below `2 ^ 64`, the semantics
of Rust's release-build `a - b` on `usize` (a debug build panics when the
subtraction underflows). -/
def usize_sub (a b : Nat) : Nat := (a + (usizeMod - b % usizeMod)) % usizeMod

/-- From `src/website.rs` line 151: the preview shows at most five
occurrences. -/
def preview_length : Nat := 5

/-- From `src/website.rs` line 153: `max(0, occurrences.len() -
preview_length)`, the count behind the "(+ n weitere)" overflow marker.  The
subtraction is on `usize`, so it wraps (release) or panics (debug) when fewer
than five occurrences are left; the `max` with zero is a no-op on an unsigned
value. -/
def render_event_remaining (e : EventWithOccurrences) : Nat :=
  max 0 (usize_sub e.occurrences.length preview_length)

/-- From `src/website.rs` lines 159-161: the overflow marker is rendered
exactly when the remaining count is positive. -/
def render_event_overflow_shown (e : EventWithOccurrences) : Bool :=
  decide (0 < render_event_remaining e)

end Website

namespace Gql

/-- From `src/store/mod.rs` (the `NewLocation` it imports from its `db`
module): the payload of the `add_location` GraphQL mutation. -/
structure NewLocation where
  name : String
  address : String
deriving DecidableEq, Repr

/-- One row of the SQL `locations` table behind `src/store/mod.rs`, keyed by
its autoincrement integer primary key. -/
structure LocationRow where
  id : Nat
  name : String
  address : String
deriving DecidableEq, Repr

/-- The `locations` table contents, in insertion order. -/
abbrev LocationsTable := List LocationRow

/-- The largest id present in the table (0 when empty): what diesel's
`locations.select(id).order(id.desc()).first(..)` in `src/store/mod.rs`
line 40 reads back. -/
def selectMaxId (t : LocationsTable) : Nat :=
  (t.map LocationRow.id).foldr max 0

/-- SQLite's rowid allocation for the `insert_into(locations)` call of
`src/store/mod.rs` lines 37-39: the freshly inserted row receives an id
strictly greater than every id currently in the table (max plus one), and the
row is appended. -/
def sqliteInsert (t : LocationsTable) (l : NewLocation) : LocationsTable × Nat :=
  let newId := selectMaxId t + 1
  (t ++ [⟨newId, l.name, l.address⟩], newId)

/-- From `src/store/mod.rs` lines 32-43, `Mutation::add_location`: inside one
transaction, insert the new location and then return the maximum id of the
table. -/
def add_location (t : LocationsTable) (new_location : NewLocation) :
    LocationsTable × Nat :=
  let r := sqliteInsert t new_location
  (r.1, selectMaxId r.1)

/-- From `src/store/mod.rs` lines 62-72, `Mutation::remove_location`: fetch
the row by id and delete it, with no referential check; `none` models the
`expect` panic when the id matches no row.  `src/main.rs`, the crate root of
the program, declares neither `mod store;` nor `mod website;`, so this
mutation is not part of the compiled program and not reachable from
outside. -/
def remove_location (t : LocationsTable) (id_to_remove : Nat) :
    Option (LocationsTable × LocationRow) :=
  match t.find? (fun row => row.id == id_to_remove) with
  | none => none
  | some row => some (t.filter (fun r => r.id != id_to_remove), row)

end Gql

namespace Db

/-- Rust's `as u32` applied to an `i32` value (`src/store/db.rs` line 198):
reinterpret the two's-complement bits, i.e. reduce modulo `2 ^ 32`. -/
def i32_to_u32 (x : Int) : Nat := (x % (2 ^ 32)).toNat

/-- Rust's `as i32` applied to a `u32` value (`src/store/db.rs` line 212):
reinterpret the bits, wrapping values of `2 ^ 31` and above to negatives. -/
def u32_to_i32 (n : Nat) : Int :=
  if n < 2 ^ 31 then (n : Int) else (n : Int) - 2 ^ 32

/-- From `src/store/db.rs` line 74: a `SqlId` wraps a UUID (modelled as its
128-bit value); the `From` conversions between `SqlId` and the domain `Id`
are the identity on that value. -/
structure SqlId where
  uuid : Nat
deriving DecidableEq, Repr

/-- From `src/store/db.rs` (the domain `Event` of this revision, fields per
the `From` impls at lines 153-177): no occurrence list, occurrences are rows
of their own keyed by `event_id`. -/
structure Event where
  title : String
  teaser : String
  description : String
deriving DecidableEq, Repr

/-- From `src/store/db.rs` (the domain `Occurrence` of this revision, fields
per the `From` impls at lines 192-217): `duration` is a `u32`. -/
structure Occurrence where
  start : Int
  duration : Nat
  location_id : SqlId
deriving DecidableEq, Repr

/-- From `src/store/db.rs` (the domain `Location`, fields per the `From`
impls at lines 226-247). -/
structure Location where
  name : String
  address : String
deriving DecidableEq, Repr

/-- From `src/store/db.rs` lines 144-151: the `events` table record. -/
structure SqlEvent where
  id : SqlId
  title : String
  teaser : String
  description : String
deriving DecidableEq, Repr

/-- From `src/store/db.rs` lines 184-190: the `occurrences` table record;
`duration` is stored as an `i32`. -/
structure SqlOccurrence where
  id : SqlId
  event_id : SqlId
  start : Int
  duration : Int
  location_id : SqlId
deriving DecidableEq, Repr

/-- From `src/store/db.rs` lines 221-225: the `locations` table record. -/
structure SqlLocation where
  id : SqlId
  name : String
  address : String
deriving DecidableEq, Repr

/-- From `src/store/db.rs` lines 153-164, `From<SqlEvent> for (Id, Event)`:
the stored identifier together with the stored fields. -/
def sqlEventToDomain (event : SqlEvent) : Nat × Db.Event :=
  (event.id.uuid, ⟨event.title, event.teaser, event.description⟩)

/-- From `src/store/db.rs` lines 166-177, `From<Event> for SqlEvent`:
`Uuid::new_v4()` mints a fresh random row identifier, modelled by the
explicit `freshId` argument; the fields are copied. -/
def eventToSql (event : Db.Event) (freshId : Nat) : SqlEvent :=
  { id := ⟨freshId⟩
    title := event.title
    teaser := event.teaser
    description := event.description }

/-- From `src/store/db.rs` lines 192-203, `From<SqlOccurrence> for
(Id, Occurrence)`: the stored identifier together with the stored fields,
the duration reinterpreted `as u32`. -/
def sqlOccurrenceToDomain (occurrence : SqlOccurrence) : Nat × Db.Occurrence :=
  (occurrence.id.uuid,
    { start := occurrence.start
      duration := i32_to_u32 occurrence.duration
      location_id := occurrence.location_id })

/-- From `src/store/db.rs` lines 205-217, `From<(Occurrence, SqlId)> for
SqlOccurrence`: a fresh random row identifier (explicit `freshId` argument),
the owning event's id, the fields copied, the duration reinterpreted
`as i32`. -/
def occurrenceToSql (occurrence : Db.Occurrence) (event_id : SqlId)
    (freshId : Nat) : SqlOccurrence :=
  { id := ⟨freshId⟩
    event_id := event_id
    start := occurrence.start
    duration := u32_to_i32 occurrence.duration
    location_id := occurrence.location_id }

/-- From `src/store/db.rs` lines 237-247, `From<SqlLocation> for
(Id, Location)`. -/
def sqlLocationToDomain (location : SqlLocation) : Nat × Db.Location :=
  (location.id.uuid, ⟨location.name, location.address⟩)

/-- From `src/store/db.rs` lines 226-236, `From<Location> for SqlLocation`:
a fresh random row identifier (explicit `freshId` argument), the fields
copied. -/
def locationToSql (location : Db.Location) (freshId : Nat) : SqlLocation :=
  { id := ⟨freshId⟩
    name := location.name
    address := location.address }

end Db

/-- A concrete store in the shape `main()` of `src/main.rs` seeds: one
location (raw id 1) and one event (raw id 1) whose occurrences reference the
location.  Used to instantiate the hypothesis-bearing theorems below. -/
def demoLocation : Location := ⟨"Chico Mendès", "Aachen"⟩

/-- A second seeded location, raw id 2, referenced by no occurrence. -/
def demoLocationFree : Location := ⟨"Sencillito", "Aachen"⟩

/-- One seeded occurrence at location 1 (instant 2019-04-02T20:30 as a minute
count does not matter for the properties; an arbitrary instant is used). -/
def demoOccurrence : Occurrence := ⟨25912110, 90, 1⟩

/-- The seeded event owning `demoOccurrence`. -/
def demoEvent : Event :=
  ⟨"Social Dance", "Einfach tanzen.", "Lindy Hop tanzen in einer Bar.",
    [demoOccurrence]⟩

/-- A second seeded event with an occurrence one day later at location 1. -/
def demoEventB : Event :=
  ⟨"Anfängerkurs", "Hereinschnuppern.", "Eine Einführung.",
    [⟨25913550, 90, 1⟩]⟩

/-- The demo store: locations 1 and 2, events 1 and 2. -/
def demoStore : Store :=
  ⟨⟨3, [(1, demoLocation), (2, demoLocationFree)]⟩,
    ⟨3, [(1, demoEvent), (2, demoEventB)]⟩⟩

/-- The demo store with its event entries listed in the opposite order (the
same map contents reached through a different insertion order). -/
def demoStoreSwapped : Store :=
  ⟨⟨3, [(1, demoLocation), (2, demoLocationFree)]⟩,
    ⟨3, [(2, demoEventB), (1, demoEvent)]⟩⟩

/-- An occurrence whose raw location reference (99) resolves against no
location of `demoStore`. -/
def demoDanglingOccurrence : Occurrence := ⟨0, 60, 99⟩

/-- An event carrying the dangling occurrence. -/
def demoEventDangling : Event :=
  ⟨"Workshop", "Neu.", "Ein Workshop.", [demoDanglingOccurrence]⟩

/-- A website-revision occurrence entry with the same dangling reference. -/
def demoWebOccurrence : Website.OccurrenceWithLocation := ⟨⟨600, 90⟩, 99⟩

/-- A website-revision event value. -/
def demoWebEvent : Website.Event := ⟨"Social Dance", "Einfach tanzen."⟩

/-- A website-revision event with four occurrences passing the filter: fewer
than the preview length of five. -/
def demoFourOccurrences : Website.EventWithOccurrences :=
  ⟨demoWebEvent, List.replicate 4 ⟨⟨25912110, 90⟩, 1⟩⟩

theorem entriesAny_iff (l : List (Nat × T)) (raw : Nat) :
    (l.any (fun p => p.1 == raw)) = true ↔ ∃ v, (raw, v) ∈ l := by
  rw [List.any_eq_true]
  constructor
  · rintro ⟨p, hp, hpr⟩
    exact ⟨p.2, by simpa using (beq_iff_eq.mp hpr) ▸ hp⟩
  · rintro ⟨v, hv⟩
    exact ⟨(raw, v), hv, by simp⟩

theorem lookup_of_entriesAny (l : List (Nat × T)) (raw : Nat)
    (h : (l.any (fun p => p.1 == raw)) = true) :
    ∃ v, l.lookup raw = some v ∧ (raw, v) ∈ l := by
  induction l with
  | nil => cases h
  | cons p rest ih =>
    by_cases hp : p.1 = raw
    · subst hp
      refine ⟨p.2, by simp [List.lookup], ?_⟩
      rw [Prod.mk.eta]
      exact List.mem_cons_self p rest
    · have hpr : (raw == p.1) = false := by simp only [beq_eq_false_iff_ne]; omega
      simp only [List.any_cons, Bool.or_eq_true, beq_iff_eq] at h
      rcases h with h | h
      · exact absurd h hp
      · obtain ⟨w, hw, hmem⟩ := ih h
        exact ⟨w, by simp [List.lookup, hpr, hw], List.mem_cons_of_mem _ hmem⟩

theorem lookup_of_entriesAny_eq_false (l : List (Nat × T)) (raw : Nat)
    (h : (l.any (fun p => p.1 == raw)) = false) : l.lookup raw = none := by
  induction l with
  | nil => rfl
  | cons p rest ih =>
    simp only [List.any_cons, Bool.or_eq_false_iff] at h
    have hp : ¬p.1 = raw := by simpa using h.1
    have hpr : (raw == p.1) = false := by simp only [beq_eq_false_iff_ne]; omega
    simp [List.lookup, hpr, ih h.2]

theorem IdMap.containsRaw_iff (m : IdMap T) (raw : Nat) :
    m.containsRaw raw = true ↔ ∃ v, (raw, v) ∈ m.entries :=
  entriesAny_iff m.entries raw

theorem IdMap.lookup_of_containsRaw (m : IdMap T) (raw : Nat)
    (h : m.containsRaw raw = true) :
    ∃ v, m.entries.lookup raw = some v ∧ (raw, v) ∈ m.entries :=
  lookup_of_entriesAny m.entries raw h

theorem IdMap.lookup_eq_none (m : IdMap T) (raw : Nat)
    (h : m.containsRaw raw = false) : m.entries.lookup raw = none :=
  lookup_of_entriesAny_eq_false m.entries raw h

theorem IdMap.validate_eq_some_iff (m : IdMap T) (raw : Nat) (i : Id T) :
    m.validate raw = some i ↔ (m.containsRaw raw = true ∧ i = ⟨raw⟩) := by
  unfold IdMap.validate
  by_cases h : m.containsRaw raw = true
  · simp [h, eq_comm]
  · rw [if_neg (by simpa using h)]
    simp [h]

theorem IdMap.validate_eq_none_iff (m : IdMap T) (raw : Nat) :
    m.validate raw = none ↔ m.containsRaw raw = false := by
  unfold IdMap.validate
  by_cases h : m.containsRaw raw = true
  · simp [h]
  · rw [if_neg (by simpa using h)]
    simp only [true_iff]
    simpa using h

theorem setEntries_any (l : List (Nat × T)) (iraw : Nat) (v : T) (raw : Nat) :
    ((l.map (fun p => if p.1 == iraw then (p.1, v) else p)).any
        (fun p => p.1 == raw)) =
      (l.any (fun p => p.1 == raw)) := by
  induction l with
  | nil => rfl
  | cons p rest ih =>
    rw [List.map_cons, List.any_cons, List.any_cons, ih]
    congr 1
    split <;> rfl

theorem IdMap.containsRaw_set (m : IdMap T) (i : Id T) (v : T) (raw : Nat) :
    (m.set i v).containsRaw raw = m.containsRaw raw :=
  setEntries_any m.entries i.raw v raw

theorem removeEntries_any_self (l : List (Nat × T)) (iraw : Nat) :
    ((l.filter (fun p => p.1 != iraw)).any (fun p => p.1 == iraw)) = false := by
  rw [Bool.eq_false_iff]
  intro h
  obtain ⟨p, hp, hpr⟩ := List.any_eq_true.mp h
  have := List.of_mem_filter hp
  simp only [bne_iff_ne, ne_eq] at this
  exact this (beq_iff_eq.mp hpr)

theorem IdMap.containsRaw_remove_self (m : IdMap T) (i : Id T) :
    ((m.remove i).2).containsRaw i.raw = false :=
  removeEntries_any_self m.entries i.raw

theorem removeEntries_any_of_ne (l : List (Nat × T)) (iraw raw : Nat)
    (h : raw ≠ iraw) :
    ((l.filter (fun p => p.1 != iraw)).any (fun p => p.1 == raw)) =
      (l.any (fun p => p.1 == raw)) := by
  induction l with
  | nil => rfl
  | cons p rest ih =>
    by_cases hp : p.1 = iraw
    · simp only [List.filter_cons, hp, bne_self_eq_false, List.any_cons]
      rw [if_neg (by simp)]
      have hiq : (iraw == raw) = false := by simp only [beq_eq_false_iff_ne]; omega
      rw [ih, hiq, Bool.false_or]
    · simp only [List.filter_cons]
      rw [if_pos (by simpa using hp)]
      simp [List.any_cons, ih]

theorem IdMap.containsRaw_remove_of_ne (m : IdMap T) (i : Id T) (raw : Nat)
    (h : raw ≠ i.raw) :
    ((m.remove i).2).containsRaw raw = m.containsRaw raw :=
  removeEntries_any_of_ne m.entries i.raw raw h

theorem IdMap.containsRaw_insert (m : IdMap T) (v : T) (raw : Nat)
    (h : m.containsRaw raw = true) : ((m.insert v).2).containsRaw raw = true := by
  unfold IdMap.containsRaw at h ⊢
  unfold IdMap.insert
  simp [List.any_cons, h]

theorem setEntries_lookup (l : List (Nat × T)) (iraw : Nat) (v : T)
    (h : (l.any (fun p => p.1 == iraw)) = true) :
    (l.map (fun p => if p.1 == iraw then (p.1, v) else p)).lookup iraw = some v := by
  induction l with
  | nil => cases h
  | cons p rest ih =>
    rw [List.map_cons]
    by_cases hp : p.1 = iraw
    · rw [if_pos (by simpa using hp)]
      simp [List.lookup, hp]
    · rw [if_neg (by simpa using hp)]
      have hpr : (iraw == p.1) = false := by simp only [beq_eq_false_iff_ne]; omega
      simp only [List.any_cons, Bool.or_eq_true, beq_iff_eq] at h
      rcases h with h | h
      · exact absurd h hp
      · have hr := ih h
        simp only [beq_iff_eq] at hr
        simp [List.lookup, hpr, hr]

theorem IdMap.get_set (m : IdMap T) (i : Id T) (v : T)
    (h : m.containsRaw i.raw = true) : (m.set i v).get i = some v :=
  setEntries_lookup m.entries i.raw v h

theorem entryLe_start (a b : QueryEntry) (h : entryLe a b) :
    a.occurrence.start ≤ b.occurrence.start := by
  unfold entryLe at h; omega

theorem entryLe_antisymm_key (a b : QueryEntry) (h1 : entryLe a b)
    (h2 : entryLe b a) : a.eventId = b.eventId ∧ a.occIdx = b.occIdx := by
  unfold entryLe at h1 h2; omega

theorem dateOf_mono (a b : Int) (h : a ≤ b) : dateOf a ≤ dateOf b := by
  unfold dateOf minutesPerDay; omega

theorem flatten_groupByDate (l : List QueryEntry) :
    (groupByDate l).flatMap Prod.snd = l := by
  induction l with
  | nil => rfl
  | cons e rest ih =>
    rw [groupByDate]
    cases hg : groupByDate rest with
    | nil =>
      rw [hg] at ih
      simp only [List.flatMap_nil] at ih
      simp [← ih]
    | cons g gs =>
      rw [hg] at ih
      obtain ⟨d, gl⟩ := g
      dsimp only
      by_cases hd : dateOf e.occurrence.start = d
      · rw [if_pos hd]
        simp only [List.flatMap_cons] at ih ⊢
        rw [List.cons_append, ih]
      · rw [if_neg hd]
        simp only [List.flatMap_cons] at ih ⊢
        rw [List.singleton_append, ih]

theorem groupByDate_sorted (l : List QueryEntry) :
    l.Sorted entryLe →
      (((groupByDate l).map Prod.fst).Sorted (· < ·) ∧
        ∀ g ∈ groupByDate l, g.2 ≠ [] ∧
          (∀ x ∈ g.2, dateOf x.occurrence.start = g.1) ∧ g.2.Sorted entryLe) := by
  induction l with
  | nil => exact fun _ => ⟨List.sorted_nil, by simp [groupByDate]⟩
  | cons e rest ih =>
    intro hs
    obtain ⟨hgs, hgroups⟩ := ih hs.of_cons
    have hhead : ∀ b ∈ rest, entryLe e b := List.rel_of_sorted_cons hs
    have hfl := flatten_groupByDate rest
    rw [groupByDate]
    cases hg : groupByDate rest with
    | nil =>
      refine ⟨by simp, ?_⟩
      intro g hgmem
      rw [List.mem_singleton] at hgmem
      subst hgmem
      exact ⟨by simp, by simp, List.sorted_singleton e⟩
    | cons g gs =>
      rw [hg] at hgs hgroups hfl
      obtain ⟨d, gl⟩ := g
      simp only [List.flatMap_cons] at hfl
      have hglsub : ∀ x ∈ gl, x ∈ rest := by
        intro x hx
        rw [← hfl]
        exact List.mem_append_left _ hx
      obtain ⟨hgl_ne, hgl_date, hgl_sorted⟩ :=
        hgroups (d, gl) (List.mem_cons_self _ _)
      dsimp only
      dsimp only at hgl_ne hgl_date hgl_sorted
      by_cases hd : dateOf e.occurrence.start = d
      · rw [if_pos hd]
        refine ⟨by simpa using hgs, ?_⟩
        intro g2 hg2
        rcases List.mem_cons.mp hg2 with hg2 | hg2
        · subst hg2
          refine ⟨by simp, ?_, ?_⟩
          · intro x hx
            rcases List.mem_cons.mp hx with hx | hx
            · subst hx; exact hd
            · exact hgl_date x hx
          · exact List.sorted_cons.mpr ⟨fun b hb => hhead b (hglsub b hb), hgl_sorted⟩
        · exact hgroups g2 (List.mem_cons_of_mem _ hg2)
      · rw [if_neg hd]
        obtain ⟨x0, hx0⟩ := List.exists_mem_of_ne_nil gl hgl_ne
        have hde : dateOf e.occurrence.start < d := by
          have h1 : dateOf e.occurrence.start ≤ dateOf x0.occurrence.start :=
            dateOf_mono _ _ (entryLe_start e x0 (hhead x0 (hglsub x0 hx0)))
          have h2 := hgl_date x0 hx0
          omega
        constructor
        · rw [List.map_cons, List.map_cons]
          refine List.sorted_cons.mpr ⟨?_, by simpa using hgs⟩
          intro b hb
          rcases List.mem_cons.mp hb with hb | hb
          · subst hb; omega
          · have hdb : d < b :=
              List.rel_of_sorted_cons (by simpa using hgs) b hb
            omega
        · intro g2 hg2
          rcases List.mem_cons.mp hg2 with hg2 | hg2
          · subst hg2
            exact ⟨by simp, by simp, List.sorted_singleton e⟩
          · exact hgroups g2 hg2

theorem eq_of_perm_of_sorted_of_antisymmOn {α : Type} {r : α → α → Prop}
    {l₁ l₂ : List α} (hp : l₁.Perm l₂) (hs₁ : l₁.Sorted r) (hs₂ : l₂.Sorted r)
    (ha : ∀ a ∈ l₁, ∀ b ∈ l₁, r a b → r b a → a = b) : l₁ = l₂ := by
  induction l₁ generalizing l₂ with
  | nil => exact hp.nil_eq
  | cons a t₁ ih =>
    cases l₂ with
    | nil => exact absurd hp.eq_nil (by simp)
    | cons b t₂ =>
      have hab : a = b := by
        by_contra hne
        have hb₁ : b ∈ a :: t₁ := hp.symm.subset (List.mem_cons_self b t₂)
        have ha₂ : a ∈ b :: t₂ := hp.subset (List.mem_cons_self a t₁)
        have hbt : b ∈ t₁ := by
          rcases List.mem_cons.mp hb₁ with h | h
          · exact absurd h.symm hne
          · exact h
        have hat : a ∈ t₂ := by
          rcases List.mem_cons.mp ha₂ with h | h
          · exact absurd h hne
          · exact h
        have hr1 : r a b := List.rel_of_sorted_cons hs₁ b hbt
        have hr2 : r b a := List.rel_of_sorted_cons hs₂ a hat
        exact hne (ha a (List.mem_cons_self a t₁) b (List.mem_cons_of_mem _ hbt) hr1 hr2)
      subst hab
      have hperm := hp.cons_inv
      have heq := ih hperm hs₁.of_cons hs₂.of_cons
        (fun x hx y hy => ha x (List.mem_cons_of_mem _ hx) y (List.mem_cons_of_mem _ hy))
      rw [heq]

theorem flatten_keys_nodup (s : Store)
    (hnd : (s.events.entries.map Prod.fst).Nodup) :
    (s.flattenOccurrences.map entryKey).Nodup := by
  unfold Store.flattenOccurrences
  rw [List.map_flatMap]
  rw [List.nodup_flatMap]
  constructor
  · intro p hp
    rw [List.map_map]
    have h1 : (entryKey ∘ fun q : Nat × Occurrence =>
        (⟨p.1, q.1, q.2, p.2⟩ : QueryEntry)) =
        ((fun i : Nat => ((p.1, i) : Nat × Nat)) ∘ Prod.fst) := rfl
    rw [h1, ← List.map_map, List.enum_map_fst]
    exact List.Nodup.map (fun a b h => by simpa using h) (List.nodup_range _)
  · have hpw : s.events.entries.Pairwise (fun p q => p.1 ≠ q.1) :=
      List.pairwise_map.mp hnd
    refine hpw.imp ?_
    intro p q hpq
    intro a ha hb
    obtain ⟨x, hx, hxa⟩ := List.mem_map.mp ha
    obtain ⟨y, hy, hya⟩ := List.mem_map.mp hb
    obtain ⟨x1, hx1, hx2⟩ := List.mem_map.mp hx
    obtain ⟨y1, hy1, hy2⟩ := List.mem_map.mp hy
    apply hpq
    have hax : a.1 = p.1 := by rw [← hxa, ← hx2]; rfl
    have hay : a.1 = q.1 := by rw [← hya, ← hy2]; rfl
    rw [← hax, ← hay]



theorem filtered_keys_nodup (s : Store) (f : OccurrenceFilter)
    (hnd : (s.events.entries.map Prod.fst).Nodup) :
    ((s.flattenOccurrences.filter (fun x => f.accepts x.occurrence)).map
      entryKey).Nodup :=
  List.Nodup.sublist (List.Sublist.map entryKey (List.filter_sublist _))
    (flatten_keys_nodup s hnd)

theorem sortedFiltered_eq (s s2 : Store) (f : OccurrenceFilter)
    (hnd : (s.events.entries.map Prod.fst).Nodup)
    (hperm : s.events.entries.Perm s2.events.entries) :
    List.insertionSort entryLe
        (s.flattenOccurrences.filter (fun x => f.accepts x.occurrence)) =
      List.insertionSort entryLe
        (s2.flattenOccurrences.filter (fun x => f.accepts x.occurrence)) := by
  have hfp : (s.flattenOccurrences.filter
      (fun x => f.accepts x.occurrence)).Perm
      (s2.flattenOccurrences.filter (fun x => f.accepts x.occurrence)) :=
    List.Perm.filter _ (List.Perm.flatMap_right _ hperm)
  apply eq_of_perm_of_sorted_of_antisymmOn
    ((List.perm_insertionSort entryLe _).trans
      (hfp.trans (List.perm_insertionSort entryLe _).symm))
    (List.sorted_insertionSort entryLe _)
    (List.sorted_insertionSort entryLe _)
  intro a ha b hb h1 h2
  have hka := entryLe_antisymm_key a b h1 h2
  have hma : a ∈ s.flattenOccurrences.filter (fun x => f.accepts x.occurrence) :=
    (List.perm_insertionSort entryLe _).subset ha
  have hmb : b ∈ s.flattenOccurrences.filter (fun x => f.accepts x.occurrence) :=
    (List.perm_insertionSort entryLe _).subset hb
  exact List.inj_on_of_nodup_map (filtered_keys_nodup s f hnd) hma hmb
    (by unfold entryKey; rw [hka.1, hka.2])

theorem foldrMax_append (xs : List Nat) (y : Nat) :
    (xs ++ [y]).foldr max 0 = max (xs.foldr max 0) y := by
  induction xs with
  | nil => simp [Nat.max_comm]
  | cons x rest ih => simp [List.foldr_cons, ih, Nat.max_assoc]

theorem le_foldrMax (xs : List Nat) (x : Nat) (h : x ∈ xs) :
    x ≤ xs.foldr max 0 := by
  induction xs with
  | nil => cases h
  | cons a rest ih =>
    rcases List.mem_cons.mp h with h | h
    · subst h; exact Nat.le_max_left _ _
    · exact Nat.le_trans (ih h) (Nat.le_max_right _ _)

theorem u32_roundtrip (n : Nat) (h : n < 2 ^ 32) :
    Db.i32_to_u32 (Db.u32_to_i32 n) = n := by
  unfold Db.i32_to_u32 Db.u32_to_i32
  split <;> omega

theorem Store.mem_dependentEvents (s : Store) (i : Id Location) (eid : Id Event) :
    eid ∈ s.dependentEvents i ↔
      ∃ ev, (eid.raw, ev) ∈ s.events.entries ∧
        ∃ o ∈ ev.occurrences, o.location_id = i.raw := by
  unfold Store.dependentEvents
  rw [List.mem_map]
  constructor
  · rintro ⟨p, hp, rfl⟩
    rw [List.mem_filter] at hp
    obtain ⟨o, ho, hor⟩ := List.any_eq_true.mp hp.2
    exact ⟨p.2, hp.1, o, ho, beq_iff_eq.mp hor⟩
  · rintro ⟨ev, hev, o, ho, hor⟩
    refine ⟨(eid.raw, ev), List.mem_filter.mpr ⟨hev, ?_⟩, rfl⟩
    exact List.any_eq_true.mpr ⟨o, ho, beq_iff_eq.mpr hor⟩

theorem Store.dependentEvents_ne_nil (s : Store) (i : Id Location)
    (h : ∃ p ∈ s.events.entries, ∃ o ∈ p.2.occurrences, o.location_id = i.raw) :
    (s.dependentEvents i).isEmpty = false := by
  obtain ⟨p, hp, ho⟩ := h
  have : (⟨p.1⟩ : Id Event) ∈ s.dependentEvents i :=
    (Store.mem_dependentEvents s i ⟨p.1⟩).mpr ⟨p.2, hp, ho⟩
  cases he : s.dependentEvents i with
  | nil => rw [he] at this; cases this
  | cons a l => rfl

theorem Store.dependentEvents_eq_nil (s : Store) (i : Id Location)
    (h : ¬∃ p ∈ s.events.entries, ∃ o ∈ p.2.occurrences, o.location_id = i.raw) :
    s.dependentEvents i = [] := by
  cases he : s.dependentEvents i with
  | nil => rfl
  | cons a l =>
    exfalso
    apply h
    have ha : a ∈ s.dependentEvents i := by rw [he]; exact List.mem_cons_self a l
    obtain ⟨ev, hev, ho⟩ := (Store.mem_dependentEvents s i a).mp ha
    exact ⟨(a.raw, ev), hev, ho⟩

/-- C4: for every state of a `TypedIdMap` (hence after every sequence of
insert and remove operations), `validate raw` succeeds — returning the typed
identifier of `raw` bound to this map — exactly when the map currently holds
an entry for `raw`, and fails otherwise; and immediately after `remove id`,
validating that identifier's raw value fails. -/
theorem c4_validate_iff_present {T : Type} (m : IdMap T) (raw : Nat) (i : Id T) :
    (m.validate raw = some ⟨raw⟩ ↔ ∃ v, (raw, v) ∈ m.entries) ∧
    (m.validate raw = none ↔ ¬∃ v, (raw, v) ∈ m.entries) ∧
    (m.remove i).2.validate i.raw = none := by
  refine ⟨?_, ?_, ?_⟩
  · rw [IdMap.validate_eq_some_iff, ← IdMap.containsRaw_iff]
    simp
  · rw [IdMap.validate_eq_none_iff, ← IdMap.containsRaw_iff]
    exact Bool.eq_false_iff.trans (by rfl)
  · rw [IdMap.validate_eq_none_iff]
    exact IdMap.containsRaw_remove_self m i

/-- C3 counterexample: an occurrence ending exactly at the reference instant
(start −30 minutes, duration 30, so end = reference) is accepted by the
`upcoming` filter, while the claim's clause "an occurrence whose end is at or
before the reference instant is excluded" demands it be excluded. -/
theorem c3_boundary_counterexample :
    (OccurrenceFilter.upcoming 0).accepts ⟨-30, 30, 7⟩ = true ∧
    Occurrence.endTime ⟨-30, 30, 7⟩ ≤ (OccurrenceFilter.upcoming 0).reference := by
  exact ⟨by decide, by decide⟩

/-- C3 (amended): the filter accepts an occurrence exactly when its end time
(start + duration minutes) is at or after the captured reference instant; an
in-progress occurrence (start = now − 10, duration 30) is accepted, an
occurrence whose end is strictly before the reference instant is rejected,
and `upcoming` carries the reference instant it captured. -/
theorem c3_upcoming_matches_end_at_or_after (f : OccurrenceFilter)
    (o : Occurrence) (now : Int) :
    (f.accepts o = true ↔ f.reference ≤ o.endTime) ∧
    (f.accepts o = false ↔ o.endTime < f.reference) ∧
    (OccurrenceFilter.upcoming now).reference = now ∧
    (OccurrenceFilter.upcoming now).accepts ⟨now - 10, 30, 0⟩ = true := by
  refine ⟨?_, ?_, rfl, ?_⟩
  · unfold OccurrenceFilter.accepts
    exact decide_eq_true_iff
  · unfold OccurrenceFilter.accepts
    rw [decide_eq_false_iff_not]
    omega
  · unfold OccurrenceFilter.accepts OccurrenceFilter.upcoming Occurrence.endTime
    simp only [decide_eq_true_iff]
    omega

/-- C8: `add_location` appends a row holding the new location under a freshly
minted identifier and returns exactly that identifier — the id it reads back
by taking the table's maximum is the id of the row just inserted, not the id
of any previously stored location. -/
theorem c8_add_location_returns_fresh_id (t : Gql.LocationsTable)
    (l : Gql.NewLocation) :
    (Gql.add_location t l).2 = (Gql.sqliteInsert t l).2 ∧
    (⟨(Gql.add_location t l).2, l.name, l.address⟩ : Gql.LocationRow) ∈
      (Gql.add_location t l).1 ∧
    (Gql.add_location t l).2 ∉ t.map Gql.LocationRow.id := by
  have hsel : Gql.selectMaxId (t ++ [⟨Gql.selectMaxId t + 1, l.name, l.address⟩]) =
      Gql.selectMaxId t + 1 := by
    unfold Gql.selectMaxId
    rw [List.map_append]
    simp only [List.map_cons, List.map_nil]
    rw [foldrMax_append]
    exact Nat.max_eq_right (Nat.le_succ _)
  refine ⟨?_, ?_, ?_⟩
  · unfold Gql.add_location Gql.sqliteInsert
    simpa using hsel
  · unfold Gql.add_location Gql.sqliteInsert
    simp only
    rw [hsel]
    exact List.mem_append_right _ (by simp)
  · unfold Gql.add_location Gql.sqliteInsert
    simp only
    rw [hsel]
    intro hmem
    have := le_foldrMax (t.map Gql.LocationRow.id) _ hmem
    unfold Gql.selectMaxId at this
    omega

/-- C9: the persistence conversions preserve identifiers and fields: a SQL
record converts to the domain pair of exactly its stored identifier and its
stored fields (duration reinterpreted from i32 to u32), and a domain value
converts to a SQL record and back to a pair of the freshly minted row
identifier and a value equal to the original (any u32 duration surviving the
i32 round trip). -/
theorem c9_sql_conversions_roundtrip (so : Db.SqlOccurrence) (se : Db.SqlEvent)
    (sl : Db.SqlLocation) (o : Db.Occurrence) (loc : Db.Location)
    (e : Db.Event) (evid : Db.SqlId) (f1 f2 f3 : Nat)
    (hdur : o.duration < 2 ^ 32) :
    Db.sqlOccurrenceToDomain so =
      (so.id.uuid, ⟨so.start, Db.i32_to_u32 so.duration, so.location_id⟩) ∧
    Db.sqlEventToDomain se = (se.id.uuid, ⟨se.title, se.teaser, se.description⟩) ∧
    Db.sqlLocationToDomain sl = (sl.id.uuid, ⟨sl.name, sl.address⟩) ∧
    Db.sqlOccurrenceToDomain (Db.occurrenceToSql o evid f1) = (f1, o) ∧
    (Db.occurrenceToSql o evid f1).event_id = evid ∧
    Db.sqlEventToDomain (Db.eventToSql e f2) = (f2, e) ∧
    Db.sqlLocationToDomain (Db.locationToSql loc f3) = (f3, loc) := by
  obtain ⟨ostart, odur, oloc⟩ := o
  obtain ⟨ename, eteaser, edescr⟩ := e
  obtain ⟨lname, laddr⟩ := loc
  refine ⟨rfl, rfl, rfl, ?_, rfl, rfl, rfl⟩
  unfold Db.sqlOccurrenceToDomain Db.occurrenceToSql
  simp [u32_roundtrip odur hdur]

/-- C9 witness: the conversions evaluated at concrete records, the duration
2^31 + 5 exercising the negative half of the i32 reinterpretation. -/
theorem c9_sql_conversions_roundtrip_witness :
    Db.sqlOccurrenceToDomain
        (Db.occurrenceToSql ⟨25912110, 2 ^ 31 + 5, ⟨77⟩⟩ ⟨13⟩ 21) =
      (21, ⟨25912110, 2 ^ 31 + 5, ⟨77⟩⟩) :=
  (c9_sql_conversions_roundtrip ⟨⟨1⟩, ⟨2⟩, 0, 0, ⟨3⟩⟩ ⟨⟨1⟩, "a", "b", "c"⟩
    ⟨⟨1⟩, "a", "b"⟩ ⟨25912110, 2 ^ 31 + 5, ⟨77⟩⟩ ⟨"a", "b"⟩ ⟨"a", "b", "c"⟩
    ⟨13⟩ 21 22 23 (by decide)).2.2.2.1

/-- C10: evaluating `render_event`'s remaining count at an event with four
filtered occurrences: the usize subtraction `4 - 5` wraps to 2^64 − 1 (and
panics in a debug build), `max(0, ·)` does not clamp it, and the "(+ n
weitere)" overflow marker is shown although only four occurrences exist —
against the claim that the count is total, equals zero here, and shows no
marker. -/
theorem c10_render_event_remaining_underflows :
    demoFourOccurrences.occurrences.length = 4 ∧
    Website.render_event_remaining demoFourOccurrences = 2 ^ 64 - 1 ∧
    Website.render_event_overflow_shown demoFourOccurrences = true := by
  exact ⟨by decide, by decide, by decide⟩

/-- C1: for a location identifier that validates against the Locations map:
when at least one occurrence of any event references it, `delete_location`
returns the dependent-events error whose payload is exactly the set of
identifiers of events owning such occurrences, and leaves the whole store
unchanged (the location still validates); when no occurrence references it,
`delete_location` removes the location and returns the stored value, and a
subsequent validate of the raw id fails. -/
theorem c1_delete_location_guard (s : Store) (i : Id Location)
    (hv : s.locations.validate i.raw = some i) :
    ((∃ p ∈ s.events.entries, ∃ o ∈ p.2.occurrences, o.location_id = i.raw) →
      s.delete_location i =
        (DeleteLocationResult.dependent (s.dependentEvents i), s) ∧
      (∀ eid : Id Event, eid ∈ s.dependentEvents i ↔
        ∃ ev, (eid.raw, ev) ∈ s.events.entries ∧
          ∃ o ∈ ev.occurrences, o.location_id = i.raw) ∧
      (s.delete_location i).2.locations.validate i.raw = some i) ∧
    ((¬∃ p ∈ s.events.entries, ∃ o ∈ p.2.occurrences, o.location_id = i.raw) →
      ∃ loc, s.locations.get i = some loc ∧
        s.delete_location i =
          (DeleteLocationResult.ok (some loc),
            { s with locations := (s.locations.remove i).2 }) ∧
        (s.delete_location i).2.locations.validate i.raw = none) := by
  constructor
  · intro h
    have hne := Store.dependentEvents_ne_nil s i h
    have heq : s.delete_location i =
        (DeleteLocationResult.dependent (s.dependentEvents i), s) := by
      simp [Store.delete_location, hne]
    refine ⟨heq, fun eid => Store.mem_dependentEvents s i eid, ?_⟩
    rw [heq]
    exact hv
  · intro h
    have hnil := Store.dependentEvents_eq_nil s i h
    have hcontains : s.locations.containsRaw i.raw = true :=
      ((IdMap.validate_eq_some_iff _ _ _).mp hv).1
    obtain ⟨loc, hlk, _⟩ :=
      IdMap.lookup_of_containsRaw s.locations i.raw hcontains
    have heq : s.delete_location i =
        (DeleteLocationResult.ok (some loc),
          { s with locations := (s.locations.remove i).2 }) := by
      simp [Store.delete_location, hnil, IdMap.remove, hlk]
    refine ⟨loc, hlk, heq, ?_⟩
    rw [heq]
    rw [IdMap.validate_eq_none_iff]
    exact IdMap.containsRaw_remove_self s.locations i

/-- C1 witness: deleting location 1 of the demo store, which both events
reference, is refused with the dependent list and the unchanged store. -/
theorem c1_delete_location_guard_witness :
    demoStore.delete_location ⟨1⟩ =
      (DeleteLocationResult.dependent (demoStore.dependentEvents ⟨1⟩),
        demoStore) :=
  ((c1_delete_location_guard demoStore ⟨1⟩ (by decide)).1 (by decide)).1

/-- C5: for every store and filter, `occurrences_by_date` yields groups whose
dates are strictly ascending, each entry standing in the group of the
calendar date of its start, entries inside one group ascending by start with
the deterministic event-identifier/position tie-break, the groups together
holding exactly the filtered occurrences; and a store holding the same event
entries in any other order (insertion order is immaterial) yields the same
output. -/
theorem c5_occurrences_by_date_sorted_deterministic (s s2 : Store)
    (f : OccurrenceFilter) (hnd : (s.events.entries.map Prod.fst).Nodup)
    (hperm : s.events.entries.Perm s2.events.entries) :
    ((s.occurrences_by_date f).map Prod.fst).Sorted (· < ·) ∧
    (∀ g ∈ s.occurrences_by_date f, ∀ x ∈ g.2,
      dateOf x.occurrence.start = g.1) ∧
    (∀ g ∈ s.occurrences_by_date f, g.2.Sorted entryLe) ∧
    (∀ g ∈ s.occurrences_by_date f,
      (g.2.map (fun x => x.occurrence.start)).Sorted (· ≤ ·)) ∧
    ((s.occurrences_by_date f).flatMap Prod.snd).Perm
      (s.flattenOccurrences.filter (fun x => f.accepts x.occurrence)) ∧
    s.occurrences_by_date f = s2.occurrences_by_date f := by
  obtain ⟨h1, h2⟩ := groupByDate_sorted
    (List.insertionSort entryLe
      (s.flattenOccurrences.filter (fun x => f.accepts x.occurrence)))
    (List.sorted_insertionSort entryLe _)
  refine ⟨h1, ?_, ?_, ?_, ?_, ?_⟩
  · exact fun g hg x hx => (h2 g hg).2.1 x hx
  · exact fun g hg => (h2 g hg).2.2
  · intro g hg
    exact List.pairwise_map.mpr
      (((h2 g hg).2.2).imp (fun h => entryLe_start _ _ h))
  · unfold Store.occurrences_by_date
    rw [flatten_groupByDate]
    exact List.perm_insertionSort entryLe _
  · unfold Store.occurrences_by_date
    rw [sortedFiltered_eq s s2 f hnd hperm]

/-- C5 witness: the demo store and its event-order-swapped twin produce the
same grouped query output for the filter with reference instant 0. -/
theorem c5_occurrences_by_date_witness :
    demoStore.occurrences_by_date ⟨0⟩ =
      demoStoreSwapped.occurrences_by_date ⟨0⟩ :=
  (c5_occurrences_by_date_sorted_deterministic demoStore demoStoreSwapped ⟨0⟩
    (by decide) (by decide)).2.2.2.2.2

/-- C7: an event whose occurrence references a location absent from the
Locations map is accepted: event creation returns the fresh identifier and
stores the event unchanged, an update of a validated event identifier
likewise succeeds, and both renderers show the fixed fallback "Steht noch
nicht fest." in place of a location name for the unresolvable reference. -/
theorem c7_dangling_location_tolerated (s : Store) (e : Event) (o : Occurrence)
    (ev : Event) (euuid : Nat) (wo : Website.OccurrenceWithLocation)
    (wev : Website.Event) (wlocs : List (Nat × Location))
    (_ho : o ∈ e.occurrences)
    (hdang : s.locations.containsRaw o.location_id = false)
    (hev : s.events.containsRaw euuid = true)
    (hw : wlocs.lookup wo.location_id = none) :
    apiStep (ApiOp.createEvent e) s =
      (ApiResponse.okEventId ⟨s.events.nextFresh⟩,
        { s with events := (s.events.insert e).2 }) ∧
    ((s.events.insert e).2).get ⟨s.events.nextFresh⟩ = some e ∧
    apiStep (ApiOp.updateEvent euuid e) s =
      (ApiResponse.okEvent e, { s with events := s.events.set ⟨euuid⟩ e }) ∧
    (html_from_occurrence o ev s.locations).location =
      "Steht noch nicht fest." ∧
    (Website.html_from_occurrence wo wev wlocs).quick_info =
      formatHM wo.occurrence.start ++ " - " ++ "Steht noch nicht fest." := by
  have hval : s.events.validate euuid = some ⟨euuid⟩ :=
    (IdMap.validate_eq_some_iff _ _ _).mpr ⟨hev, rfl⟩
  have hget : (s.events.set ⟨euuid⟩ e).get ⟨euuid⟩ = some e :=
    IdMap.get_set s.events ⟨euuid⟩ e hev
  refine ⟨rfl, ?_, ?_, ?_, ?_⟩
  · unfold IdMap.insert IdMap.get
    simp [List.lookup]
  · simp [apiStep, hval, hget]
  · simp [html_from_occurrence, (IdMap.validate_eq_none_iff _ _).mpr hdang]
  · simp [Website.html_from_occurrence, hw]

/-- C7 witness: the demo event with the dangling reference renders the
fallback text in the demo store. -/
theorem c7_dangling_location_tolerated_witness :
    (html_from_occurrence demoDanglingOccurrence demoEvent
        demoStore.locations).location = "Steht noch nicht fest." :=
  (c7_dangling_location_tolerated demoStore demoEventDangling
    demoDanglingOccurrence demoEvent 1 demoWebOccurrence demoWebEvent
    [(1, demoLocation)] (by decide) (by decide) (by decide)
    (by decide)).2.2.2.1

/-- C6: every route carrying an externally supplied raw identifier that fails
validation against its target map returns a not-found response and leaves the
store unchanged; the not-found response is a different constructor from
`delete_location`'s dependent-events conflict (which carries the dependent
event identifiers); and no route of the API ever reaches the fatal (panic)
outcome, whatever the identifier. -/
theorem c6_invalid_id_distinguishable (s : Store) (uuid : Nat) (e : Event)
    (l : Location) (hev : s.events.containsRaw uuid = false)
    (hloc : s.locations.containsRaw uuid = false) :
    apiStep (ApiOp.readEvent uuid) s = (ApiResponse.notFound "", s) ∧
    apiStep (ApiOp.updateEvent uuid e) s =
      (ApiResponse.notFound "The uuid does not belong to an event.", s) ∧
    apiStep (ApiOp.deleteEvent uuid) s =
      (ApiResponse.notFound "The uuid does not belong to an event.", s) ∧
    apiStep (ApiOp.readLocation uuid) s = (ApiResponse.notFound "", s) ∧
    apiStep (ApiOp.updateLocation uuid l) s = (ApiResponse.notFound "", s) ∧
    apiStep (ApiOp.deleteLocation uuid) s =
      (ApiResponse.notFound "No event was found with the id.", s) ∧
    (∀ msg deps, ApiResponse.notFound msg ≠ ApiResponse.conflict deps) ∧
    (∀ op2 : ApiOp, (apiStep op2 s).1 ≠ ApiResponse.fatal) := by
  have hvev : s.events.validate uuid = none :=
    (IdMap.validate_eq_none_iff _ _).mpr hev
  have hvloc : s.locations.validate uuid = none :=
    (IdMap.validate_eq_none_iff _ _).mpr hloc
  refine ⟨?_, ?_, ?_, ?_, ?_, ?_, ?_, ?_⟩
  · simp [apiStep, hvev]
  · simp [apiStep, hvev]
  · simp [apiStep, hvev]
  · simp [apiStep, hvloc]
  · simp [apiStep, hvloc]
  · simp [apiStep, hvloc]
  · intro msg deps h
    cases h
  intro op2
  cases op2 with
  | createEvent e2 => simp [apiStep]
  | createLocation l2 => simp [apiStep]
  | readEvent u =>
    cases hv : s.events.validate u with
    | none => simp [apiStep, hv]
    | some i =>
      obtain ⟨hc, hi⟩ := (IdMap.validate_eq_some_iff _ _ _).mp hv
      subst hi
      obtain ⟨v, hlk, _⟩ := IdMap.lookup_of_containsRaw s.events u hc
      simp [apiStep, hv, show s.events.get ⟨u⟩ = some v from hlk]
  | updateEvent u e2 =>
    cases hv : s.events.validate u with
    | none => simp [apiStep, hv]
    | some i =>
      obtain ⟨hc, hi⟩ := (IdMap.validate_eq_some_iff _ _ _).mp hv
      subst hi
      simp [apiStep, hv, IdMap.get_set s.events ⟨u⟩ e2 hc]
  | deleteEvent u =>
    cases hv : s.events.validate u with
    | none => simp [apiStep, hv]
    | some i =>
      obtain ⟨hc, hi⟩ := (IdMap.validate_eq_some_iff _ _ _).mp hv
      subst hi
      obtain ⟨v, hlk, _⟩ := IdMap.lookup_of_containsRaw s.events u hc
      simp [apiStep, hv, show (s.events.remove ⟨u⟩).1 = some v from hlk]
  | readLocation u =>
    cases hv : s.locations.validate u with
    | none => simp [apiStep, hv]
    | some i =>
      obtain ⟨hc, hi⟩ := (IdMap.validate_eq_some_iff _ _ _).mp hv
      subst hi
      obtain ⟨v, hlk, _⟩ := IdMap.lookup_of_containsRaw s.locations u hc
      simp [apiStep, hv, show s.locations.get ⟨u⟩ = some v from hlk]
  | updateLocation u l2 =>
    cases hv : s.locations.validate u with
    | none => simp [apiStep, hv]
    | some i =>
      obtain ⟨hc, hi⟩ := (IdMap.validate_eq_some_iff _ _ _).mp hv
      subst hi
      simp [apiStep, hv, IdMap.get_set s.locations ⟨u⟩ l2 hc]
  | deleteLocation u =>
    cases hv : s.locations.validate u with
    | none => simp [apiStep, hv]
    | some i =>
      obtain ⟨hc, hi⟩ := (IdMap.validate_eq_some_iff _ _ _).mp hv
      subst hi
      by_cases hdeps : (s.dependentEvents ⟨u⟩).isEmpty = true
      · obtain ⟨v, hlk, _⟩ := IdMap.lookup_of_containsRaw s.locations u hc
        have hD : s.delete_location ⟨u⟩ =
            (DeleteLocationResult.ok (some v),
              { s with locations := (s.locations.remove ⟨u⟩).2 }) := by
          simp [Store.delete_location, hdeps, IdMap.remove, hlk]
        simp [apiStep, hv, hD]
      · have hdeps2 : (s.dependentEvents ⟨u⟩).isEmpty = false := by
          cases h2 : (s.dependentEvents ⟨u⟩).isEmpty
          · rfl
          · exact absurd h2 hdeps
        have hD : s.delete_location ⟨u⟩ =
            (DeleteLocationResult.dependent (s.dependentEvents ⟨u⟩), s) := by
          simp [Store.delete_location, hdeps2]
        simp [apiStep, hv, hD]

/-- C6 witness: the raw identifier 99 validates against neither map of the
demo store; its delete-location route answers not-found with the store
unchanged. -/
theorem c6_invalid_id_distinguishable_witness :
    apiStep (ApiOp.deleteLocation 99) demoStore =
      (ApiResponse.notFound "No event was found with the id.", demoStore) :=
  (c6_invalid_id_distinguishable demoStore 99 demoEvent demoLocation
    (by decide) (by decide)).2.2.2.2.2.1

/-- C2: whatever exposed route runs, a location that some occurrence of some
event references survives: it is still present afterwards — in particular the
location-deletion route never succeeds on it (it answers with the conflict,
never with the deleted location).  The unchecked GraphQL `remove_location` of
`src/store/mod.rs` is no route of this program (`src/main.rs` declares no
`mod store;`), so no exposed operation performs an unchecked removal. -/
theorem c2_referenced_location_survives (op : ApiOp) (s : Store) (lid : Nat)
    (hpresent : s.locations.containsRaw lid = true)
    (href : ∃ p ∈ s.events.entries, ∃ o ∈ p.2.occurrences,
      o.location_id = lid) :
    (apiStep op s).2.locations.containsRaw lid = true ∧
    ∀ l s2, apiStep (ApiOp.deleteLocation lid) s ≠
      (ApiResponse.okLocation l, s2) := by
  have hvallid : s.locations.validate lid = some ⟨lid⟩ :=
    (IdMap.validate_eq_some_iff _ _ _).mpr ⟨hpresent, rfl⟩
  have hne : (s.dependentEvents ⟨lid⟩).isEmpty = false :=
    Store.dependentEvents_ne_nil s ⟨lid⟩ href
  have hDlid : s.delete_location ⟨lid⟩ =
      (DeleteLocationResult.dependent (s.dependentEvents ⟨lid⟩), s) := by
    simp [Store.delete_location, hne]
  constructor
  · cases op with
    | createEvent e => simpa [apiStep] using hpresent
    | createLocation l =>
      simp only [apiStep]
      exact IdMap.containsRaw_insert s.locations l lid hpresent
    | readEvent u =>
      cases hv : s.events.validate u with
      | none => simpa [apiStep, hv] using hpresent
      | some i =>
        cases hg : s.events.get i with
        | some e2 => simpa [apiStep, hv, hg] using hpresent
        | none => simpa [apiStep, hv, hg] using hpresent
    | updateEvent u e2 =>
      cases hv : s.events.validate u with
      | none => simpa [apiStep, hv] using hpresent
      | some i =>
        cases hg : (s.events.set i e2).get i with
        | some cur => simpa [apiStep, hv, hg] using hpresent
        | none => simpa [apiStep, hv, hg] using hpresent
    | deleteEvent u =>
      cases hv : s.events.validate u with
      | none => simpa [apiStep, hv] using hpresent
      | some i =>
        cases hg : (s.events.remove i).1 with
        | some e2 => simpa [apiStep, hv, hg] using hpresent
        | none => simpa [apiStep, hv, hg] using hpresent
    | readLocation u =>
      cases hv : s.locations.validate u with
      | none => simpa [apiStep, hv] using hpresent
      | some i =>
        cases hg : s.locations.get i with
        | some l2 => simpa [apiStep, hv, hg] using hpresent
        | none => simpa [apiStep, hv, hg] using hpresent
    | updateLocation u l2 =>
      cases hv : s.locations.validate u with
      | none => simpa [apiStep, hv] using hpresent
      | some i =>
        cases hg : (s.locations.set i l2).get i with
        | some cur =>
          simp only [apiStep, hv, hg]
          rw [IdMap.containsRaw_set]
          exact hpresent
        | none =>
          simp only [apiStep, hv, hg]
          rw [IdMap.containsRaw_set]
          exact hpresent
    | deleteLocation u =>
      cases hv : s.locations.validate u with
      | none => simpa [apiStep, hv] using hpresent
      | some i =>
        obtain ⟨hc, hi⟩ := (IdMap.validate_eq_some_iff _ _ _).mp hv
        subst hi
        by_cases hdeps : (s.dependentEvents ⟨u⟩).isEmpty = true
        · have hne2 : lid ≠ u := by
            intro heq
            subst heq
            rw [hne] at hdeps
            cases hdeps
          have hD : s.delete_location ⟨u⟩ =
              (DeleteLocationResult.ok (s.locations.remove ⟨u⟩).1,
                { s with locations := (s.locations.remove ⟨u⟩).2 }) := by
            simp [Store.delete_location, hdeps]
          cases hr : (s.locations.remove ⟨u⟩).1 with
          | some l2 =>
            simp only [apiStep, hv, hD, hr]
            rw [IdMap.containsRaw_remove_of_ne s.locations ⟨u⟩ lid hne2]
            exact hpresent
          | none =>
            simp only [apiStep, hv, hD, hr]
            rw [IdMap.containsRaw_remove_of_ne s.locations ⟨u⟩ lid hne2]
            exact hpresent
        · have hdeps2 : (s.dependentEvents ⟨u⟩).isEmpty = false := by
            cases h2 : (s.dependentEvents ⟨u⟩).isEmpty
            · rfl
            · exact absurd h2 hdeps
          have hD : s.delete_location ⟨u⟩ =
              (DeleteLocationResult.dependent (s.dependentEvents ⟨u⟩), s) := by
            simp [Store.delete_location, hdeps2]
          simpa [apiStep, hv, hD] using hpresent
  · intro l2 s2 hcontra
    have h1 : (apiStep (ApiOp.deleteLocation lid) s).1 =
        ApiResponse.conflict (s.dependentEvents ⟨lid⟩) := by
      simp [apiStep, hvallid, hDlid]
    rw [hcontra] at h1
    cases h1

/-- C2 witness: deleting the referenced location 1 through the route leaves
it present in the demo store. -/
theorem c2_referenced_location_survives_witness :
    (apiStep (ApiOp.deleteLocation 1) demoStore).2.locations.containsRaw 1 =
      true :=
  (c2_referenced_location_survives (ApiOp.deleteLocation 1) demoStore 1
    (by decide) (by decide)).1

end Lindy
